import Mathlib

/-!
Verification of the `research-tools` repository (Binance historical data
download, dataset assembly and Johansen cointegration helpers).

The Python sources are shallowly embedded:
* the file system is an explicit value (`FS`) threaded through the download
  functions, the network is a function from URL to `Option` of the body
  (`none` models `urllib.error.HTTPError` raised by `urlopen`);
* CSV files are lists of records; pandas numeric columns become `ℚ`;
* `datetime.date` values become `PyDate` with the lexicographic order that
  Python's date comparison implements;
* Python exceptions that a claim is about are an explicit `Except` channel.
-/

namespace ResearchTools

/-- Python truthiness for an optional string: `None` and `""` are falsy. -/
def truthy : Option String → Option String
  | none => none
  | some s => if s.isEmpty then none else some s

/-- Python `str.startswith`, on the underlying character lists. -/
def strStartsWith (s p : String) : Bool :=
  p.data.isPrefixOf s.data

/-- Python `str.endswith`, on the underlying character lists. -/
def strEndsWith (s p : String) : Bool :=
  p.data.isSuffixOf s.data

/-- Model of `os.path.join` on POSIX, for the cases exercised here: an absolute second
component wins, an empty first component is dropped, otherwise the parts are
joined with a single slash. -/
def pathJoin (a b : String) : String :=
  if strStartsWith b "/" then b
  else if a = "" then b
  else if strEndsWith a "/" then a ++ b
  else a ++ "/" ++ b

/-- Python `datetime.date`: year, month, day. -/
structure PyDate where
  year : Nat
  month : Nat
  day : Nat
deriving DecidableEq, Repr

/-- Python date comparison (lexicographic on year, month, day). -/
def PyDate.leb (a b : PyDate) : Bool :=
  if a.year ≠ b.year then decide (a.year < b.year)
  else if a.month ≠ b.month then decide (a.month < b.month)
  else decide (a.day ≤ b.day)

/-- Zero padding to two digits, as `strftime` `%m` / `%d` produce. -/
def pad2 (n : Nat) : String :=
  if n < 10 then "0" ++ toString n else toString n

/-- Zero padding to four digits, as `strftime` `%Y` produces. -/
def pad4 (n : Nat) : String :=
  if n < 10 then "000" ++ toString n
  else if n < 100 then "00" ++ toString n
  else if n < 1000 then "0" ++ toString n
  else toString n

/-- The `YYYY-MM-DD` rendering of a date (`strftime "%Y-%m-%d"`). -/
def dateStr (d : PyDate) : String :=
  pad4 d.year ++ "-" ++ pad2 d.month ++ "-" ++ pad2 d.day

/-- Python `str.upper()` (the symbols here are ASCII). -/
def pyUpper (s : String) : String := ⟨s.data.map Char.toUpper⟩

/-- From `enums.py`: `BASE_URL`. -/
def BASE_URL : String := "https://data.binance.vision/"

/-- From `enums.py`: `DAILY_INTERVALS`. -/
def DAILY_INTERVALS : List String :=
  ["1m", "5m", "15m", "30m", "1h", "2h", "4h", "6h", "8h", "12h", "1d"]

/-- From `enums.py`: `INTERVALS`. -/
def INTERVALS : List String :=
  ["1m", "5m", "15m", "30m", "1h", "2h", "4h", "6h", "8h", "12h", "1d", "3d", "1w", "1mo"]

/-- From `enums.py`: `START_DATE = date(int(YEARS[0]), MONTHS[0], 1)` = 2017-01-01. -/
def START_DATE : PyDate := ⟨2017, 1, 1⟩

/-- The file-system state: files with their contents, plus the set of
directories created so far.  `mkdir(parents=True, exist_ok=True)` is modelled
by `FS.mkdir`. -/
structure FS where
  files : List (String × String)
  dirs : List String
deriving DecidableEq, Repr

/-- Model of `os.path.exists`: true when a file or a directory of that name exists. -/
def FS.pathExists (fs : FS) (p : String) : Bool :=
  fs.files.any (fun e => e.1 == p) || fs.dirs.contains p

/-- Model of `Path(d).mkdir(parents=True, exist_ok=True)`: no change when the
directory already exists. -/
def FS.mkdir (fs : FS) (d : String) : FS :=
  if fs.dirs.contains d then fs else { fs with dirs := d :: fs.dirs }

/-- Writing a (whole) file. -/
def FS.writeFile (fs : FS) (p content : String) : FS :=
  { fs with files := (p, content) :: fs.files }

/-- From `utility.py`: `get_destination_dir(file_url, folder)`.  `env` is
`os.environ.get("STORE_DIRECTORY")` and `sd` is the directory of the script,
the final fallback. -/
def get_destination_dir (env : Option String) (sd : String)
    (file_url : String) (folder : Option String) : String :=
  let store : String :=
    match truthy folder with
    | some f => f
    | none =>
      match truthy env with
      | some s => s
      | none => sd
  pathJoin store file_url

/-- From `utility.py`: `get_download_url(file_url)`. -/
def get_download_url (file_url : String) : String :=
  BASE_URL ++ file_url

/-- The save path computed at the top of `download_file`: `base_path` is
first joined below `folder` when a folder is given, then the file name is
appended and the result resolved by `get_destination_dir`. -/
def computed_save_path (env : Option String) (sd : String)
    (base_path file_name : String) (folder : Option String) : String :=
  let base_path2 :=
    match truthy folder with
    | some f => pathJoin f base_path
    | none => base_path
  get_destination_dir env sd (pathJoin base_path2 file_name) folder

/-- The body of the `try:` block of `download_file`: `urlopen` either raises
`HTTPError` (`net url = none`, propagated as `.error`) or streams the body to
`save_path`. -/
def download_file_try (net : String → Option String) (fs : FS)
    (download_path save_path : String) : Except Unit FS :=
  match net (get_download_url download_path) with
  | none => .error ()
  | some content => .ok (fs.writeFile save_path content)

/-- From `utility.py`: `download_file(base_path, file_name, date_range, folder)`.
Returns the resulting file system together with a flag recording whether a
network connection was opened.  `date_range` is accepted but unused, as in
the source where its only use is commented out. -/
def download_file (env : Option String) (sd : String)
    (net : String → Option String) (fs : FS)
    (base_path file_name : String) (date_range : Option String)
    (folder : Option String) : FS × Bool :=
  let download_path := base_path ++ file_name
  let base_path2 :=
    match truthy folder with
    | some f => pathJoin f base_path
    | none => base_path
  let save_path := computed_save_path env sd base_path file_name folder
  if fs.pathExists save_path then
    (fs, false)
  else
    let fs1 :=
      if fs.pathExists base_path2 then fs
      else fs.mkdir (get_destination_dir env sd base_path2 none)
    match download_file_try net fs1 download_path save_path with
    | .ok fs2 => (fs2, true)
    | .error _ => (fs1, true)

/-- From `utility.py`: `get_path(trading_type, market_data_type, time_period,
symbol, interval)`. -/
def get_path (trading_type market_data_type time_period symbol : String)
    (interval : Option String := none) : String :=
  let trading_type_path :=
    if trading_type ≠ "spot" then "data/futures/" ++ trading_type
    else "data/spot"
  match interval with
  | some i =>
    trading_type_path ++ "/" ++ time_period ++ "/" ++ market_data_type ++ "/" ++
      pyUpper symbol ++ "/" ++ i ++ "/"
  | none =>
    trading_type_path ++ "/" ++ time_period ++ "/" ++ market_data_type ++ "/" ++
      pyUpper symbol ++ "/"

/-- Modelled from the spec (Path/Name Resolver): the path follows the
exchange convention `data/spot/<period>/<kind>/<SYMBOL>/<interval>/` for
spot, with `data/futures/<type>` replacing `data/spot` for non-spot types,
the symbol uppercased, the interval segment omitted when no interval is
given, and a trailing slash. -/
def get_path_spec (trading_type market_data_type time_period symbol : String)
    (interval : Option String) : String :=
  let base :=
    if trading_type = "spot" then "data/spot" else "data/futures/" ++ trading_type
  let intervalSeg :=
    match interval with
    | some i => i ++ "/"
    | none => ""
  base ++ "/" ++ (time_period ++ "/" ++ (market_data_type ++ "/" ++
    (pyUpper symbol ++ "/" ++ intervalSeg)))

/-- From `download_kline.py`, `download_daily_klines`: the file name
`SYMBOL-interval-date.zip`. -/
def klineFileName (symbol interval : String) (d : PyDate) : String :=
  pyUpper symbol ++ "-" ++ interval ++ "-" ++ dateStr d ++ ".zip"

/-- The `(symbol, interval, date)` triples visited by the nested loops of
`download_daily_klines`, in loop order, keeping only the dates inside the
requested range. -/
def klinesTriples (symbols intervals2 : List String) (dates : List PyDate)
    (s e : PyDate) : List (String × String × PyDate) :=
  symbols.flatMap fun sym =>
    intervals2.flatMap fun itv =>
      (dates.filter fun d => s.leb d && d.leb e).map fun d => (sym, itv, d)

/-- The `(path, file_name)` arguments `download_daily_klines` passes to
`download_file`, in call order (two calls per triple when `checksum == 1`). -/
def klinesAttemptList (trading_type : String)
    (triples : List (String × String × PyDate)) (checksum : Nat) :
    List (String × String) :=
  triples.flatMap fun t =>
    let p := get_path trading_type "klines" "daily" t.1 (some t.2.1)
    let f := klineFileName t.1 t.2.1 t.2.2
    if checksum == 1 then [(p, f), (p, f ++ ".CHECKSUM")] else [(p, f)]

/-- From `download_kline.py`: `download_daily_klines`.  `start_date` / `end_date`
are the optional CLI strings (already parsed into dates); when absent they
default to `START_DATE` and to today (`today` stands for
`datetime.date(datetime.now())`).  The result is the final file system
together with the ordered list of `(path, file_name)` download attempts. -/
def download_daily_klines (env : Option String) (sd : String)
    (net : String → Option String) (fs : FS)
    (trading_type : String) (symbols intervals : List String)
    (dates : List PyDate) (start_date end_date : Option PyDate)
    (today : PyDate) (folder : Option String) (checksum : Nat) :
    FS × List (String × String) :=
  let date_range : Option String :=
    match start_date, end_date with
    | some a, some b => some (dateStr a ++ " " ++ dateStr b)
    | _, _ => none
  let s := start_date.getD START_DATE
  let e := end_date.getD today
  let intervals2 := (intervals.filter (fun i => decide (i ∈ DAILY_INTERVALS))).dedup
  let attempts := klinesAttemptList trading_type
    (klinesTriples symbols intervals2 dates s e) checksum
  (attempts.foldl
    (fun acc a => (download_file env sd net acc a.1 a.2 date_range folder).1) fs,
   attempts)

/-- The Python exceptions `historical_data.py` can raise in
`downloaded_filepaths`. -/
inductive PyErr where
  | valueError
  | unboundLocal
deriving DecidableEq, Repr

/-- Python `dict` assignment `m[k] = v`: updates in place when the key is
present (keeping its position), appends otherwise. -/
def upsert (m : List (String × α)) (k : String) (v : α) :
    List (String × α) :=
  if m.any (fun e => e.1 == k) then
    m.map (fun e => if e.1 == k then (k, v) else e)
  else m ++ [(k, v)]

/-- The kline filepath built by `downloaded_filepaths`:
`{cwd}/test_data/binance/data/spot/daily/{type}/{symbol}/{interval}/{symbol}-{interval}-{date}.zip`. -/
def klineFilepath (cwd type_ symbol interval : String) (d : PyDate) : String :=
  cwd ++ "/test_data/binance/data/spot/daily/" ++ type_ ++ "/" ++
    (symbol ++ "/" ++ interval) ++ "/" ++ symbol ++ "-" ++ interval ++ "-" ++
    dateStr d ++ ".zip"

/-- The trades filepath built by `downloaded_filepaths`:
`{cwd}/test_data/binance/data/spot/daily/{type}/{symbol}/{symbol}-{type}-{date}.zip`. -/
def tradeFilepath (cwd type_ symbol : String) (d : PyDate) : String :=
  cwd ++ "/test_data/binance/data/spot/daily/" ++ type_ ++ "/" ++ symbol ++
    "/" ++ symbol ++ "-" ++ type_ ++ "-" ++ dateStr d ++ ".zip"

/-- The dictionary being built: filepath → `(symbol, interval?)`. -/
abbrev Filepaths := List (String × (String × Option String))

/-- The inner date loop for a symbol with a non-empty interval list.  The
local variable `filepath` (unbound at function entry, hence the `Option`
state) is assigned in the `klines` and `trades` branches; any other type
raises `ValueError` before an assignment happens. -/
def dfDates1 (cwd type_ sym itv : String) :
    Option String → Filepaths → List PyDate →
    Except PyErr (Option String × Filepaths)
  | fp, acc, [] => .ok (fp, acc)
  | fp, acc, d :: ds =>
    if type_ == "klines" then
      let k := klineFilepath cwd type_ sym itv d
      dfDates1 cwd type_ sym itv (some k) (upsert acc k (sym, some itv)) ds
    else if type_ == "trades" then
      let k := tradeFilepath cwd type_ sym d
      dfDates1 cwd type_ sym itv (some k) (upsert acc k (sym, some itv)) ds
    else
      let _ := fp
      .error .valueError

/-- The interval loop for a symbol with a non-empty interval list. -/
def dfIntervals (cwd type_ sym : String) (dates : List PyDate) :
    Option String → Filepaths → List String →
    Except PyErr (Option String × Filepaths)
  | fp, acc, [] => .ok (fp, acc)
  | fp, acc, itv :: itvs =>
    match dfDates1 cwd type_ sym itv fp acc dates with
    | .error e => .error e
    | .ok r => dfIntervals cwd type_ sym dates r.1 r.2 itvs

/-- The date loop for a symbol whose interval list is empty: `filepath` is
only assigned when `type_ == "trades"`, yet it is read unconditionally; when
it is still unbound Python raises `UnboundLocalError`, and when it holds a
value from an earlier iteration that stale value is silently reused as the
dictionary key. -/
def dfDates2 (cwd type_ sym : String) :
    Option String → Filepaths → List PyDate →
    Except PyErr (Option String × Filepaths)
  | fp, acc, [] => .ok (fp, acc)
  | fp, acc, d :: ds =>
    let fp1 := if type_ == "trades" then some (tradeFilepath cwd type_ sym d) else fp
    match fp1 with
    | none => .error .unboundLocal
    | some k => dfDates2 cwd type_ sym fp1 (upsert acc k (sym, none)) ds

/-- The symbol loop of `downloaded_filepaths`. -/
def dfSymbols (cwd type_ : String) (dates : List PyDate) :
    Option String → Filepaths → List (String × List String) →
    Except PyErr (Option String × Filepaths)
  | fp, acc, [] => .ok (fp, acc)
  | fp, acc, (sym, itvs) :: rest =>
    match (if itvs.length > 0 then dfIntervals cwd type_ sym dates fp acc itvs
      else dfDates2 cwd type_ sym fp acc dates) with
    | .error e => .error e
    | .ok r => dfSymbols cwd type_ dates r.1 r.2 rest

/-- From `historical_data.py`: `downloaded_filepaths(type_, start_date, end_date,
symbol_data_required)`.  The enumeration of calendar days between the two
date strings (`pd.date_range(start, end, freq="d")`) is taken as the input
list `dateRange`; `symReq` is the `symbol_data_required` dictionary in
insertion order. -/
def downloaded_filepaths (cwd type_ : String) (dateRange : List PyDate)
    (symReq : List (String × List String)) : Except PyErr Filepaths :=
  match dfSymbols cwd type_ dateRange none [] symReq with
  | .error e => .error e
  | .ok r => .ok r.2

/-- Model of `DataFrame.sort_values(by=col)`: a stable sort of the rows by the value
of one column, in non-decreasing order. -/
def sortByKey [LinearOrder β] (key : α → β) (l : List α) : List α :=
  @List.insertionSort α (fun a b => key a ≤ key b)
    (fun a b => inferInstanceAs (Decidable (key a ≤ key b))) l

theorem sortByKey_perm [LinearOrder β] (key : α → β) (l : List α) :
    List.Perm (sortByKey key l) l :=
  List.perm_insertionSort _ l

theorem sortByKey_pairwise [LinearOrder β] (key : α → β) (l : List α) :
    (sortByKey key l).Pairwise (fun a b => key a ≤ key b) :=
  @List.sorted_insertionSort α (fun a b => key a ≤ key b)
    (fun a b => inferInstanceAs (Decidable (key a ≤ key b)))
    ⟨fun a b => le_total (key a) (key b)⟩
    ⟨fun _ _ _ h1 h2 => le_trans h1 h2⟩ l

theorem sortByKey_mem [LinearOrder β] (key : α → β) (l : List α) (x : α) :
    x ∈ sortByKey key l ↔ x ∈ l :=
  (sortByKey_perm key l).mem_iff

theorem sortByKey_nodup [LinearOrder β] (key : α → β) (l : List α)
    (h : l.Nodup) : (sortByKey key l).Nodup :=
  ((sortByKey_perm key l).nodup_iff).mpr h

/-- A row of a Binance trades CSV file, with the seven fixed columns named by
`trade_data_collation`. -/
structure TradeRow where
  tradeID : Nat
  price : ℚ
  qty : ℚ
  quoteQty : ℚ
  time : Nat
  isBuyerMaker : Bool
  isBestMatch : Bool
deriving DecidableEq, Repr

/-- A row of the collated trades table: the 10-second bucket start (in
milliseconds), the aggregated columns, and the added symbol column. -/
structure CollRow where
  time : Nat
  price : ℚ
  qty : ℚ
  quoteQty : ℚ
  symbol : String
deriving DecidableEq, Repr

/-- The bucketing step of `trade_data_collation`:
`df["time"] = df["time"].floordiv(10000) * 10000`. -/
def tdcFloored (rows : List TradeRow) : List TradeRow :=
  rows.map fun r => { r with time := r.time / 10000 * 10000 }

/-- The distinct bucket keys, ascending — pandas `groupby` sorts its group
keys. -/
def tdcKeys (rows : List TradeRow) : List Nat :=
  sortByKey id ((tdcFloored rows).map (fun r => r.time)).dedup

/-- The aggregated output row for one bucket key:
`agg({"price": "mean", "qty": "sum", "quoteQty": "sum"})`, plus the added
symbol column. -/
def tdcMk (rows : List TradeRow) (symbol : String) (t : Nat) : CollRow :=
  let g := (tdcFloored rows).filter fun r => r.time == t
  { time := t
    price := (g.map (·.price)).sum / (g.length : ℚ)
    qty := (g.map (·.qty)).sum
    quoteQty := (g.map (·.quoteQty)).sum
    symbol := symbol }

/-- From `historical_data.py`: `trade_data_collation(filename, symbol,
limit_rows, nrows)`.  `rows` is the parsed content of the CSV file; reading
with `nrows=` becomes `List.take`.  The trade times are floored to a
10-second grid, the rows grouped by the floored time (pandas `groupby`
sorts the distinct keys in ascending order), prices averaged and quantities
summed, then the symbol column is appended. -/
def trade_data_collation (rows : List TradeRow) (symbol : String)
    (limit_rows : Bool := false) (nrows : Nat := 50000) : List CollRow :=
  let df := if limit_rows then rows.take nrows else rows
  (tdcKeys df).map (tdcMk df symbol)

/-- A row of a Binance klines CSV file, with the twelve fixed columns of
`get_binance_kline_data`. -/
structure KlineCsv where
  openTime : ℚ
  openPrice : ℚ
  high : ℚ
  low : ℚ
  close : ℚ
  volume : ℚ
  closeTime : ℚ
  quoteAssetVolume : ℚ
  numberOfTrades : ℚ
  takerBuyAssetVolume : ℚ
  takerBuyQuoteAssetVolume : ℚ
  ignored : ℚ
deriving DecidableEq, Repr

/-- A kline row after the `symbol` and `interval` columns are added. -/
structure KlineRow extends KlineCsv where
  symbol : String
  interval : Option String
deriving DecidableEq, Repr

/-- From `historical_data.py`: `get_binance_kline_data(start_date, end_date,
symbol_data_required)`.  `readK` stands for `pd.read_csv` on a zipped kline
archive; the per-file tables are concatenated in dictionary order, given
their symbol and interval columns, and sorted by `close time`. -/
def get_binance_kline_data (readK : String → List KlineCsv) (cwd : String)
    (dateRange : List PyDate) (symReq : List (String × List String)) :
    Except PyErr (List KlineRow) :=
  match downloaded_filepaths cwd "klines" dateRange symReq with
  | .error e => .error e
  | .ok filepaths =>
    .ok (sortByKey (·.closeTime) (filepaths.flatMap fun e =>
      (readK e.1).map fun r => { r with symbol := e.2.1, interval := e.2.2 }))

/-- From `historical_data.py`: `get_binance_trade_data(start_date, end_date,
symbols)`.  Every symbol is mapped to an empty interval list, the trade
archives are collated per file and concatenated, and the result is sorted by
`time`. -/
def get_binance_trade_data (readT : String → List TradeRow) (cwd : String)
    (dateRange : List PyDate) (symbols : List String) :
    Except PyErr (List CollRow) :=
  match downloaded_filepaths cwd "trades" dateRange
      (symbols.map fun s => (s, ([] : List String))) with
  | .error e => .error e
  | .ok filepaths =>
    .ok (sortByKey (·.time) (filepaths.flatMap fun e =>
      trade_data_collation (readT e.1) e.2.1))

/-- Access `self.test_result.evec[row][idx]`: component `idx` of row `row` of the
Johansen eigenvector matrix (out-of-range access, which Python would reject,
is given the junk value `0`; the theorems only use in-range components). -/
def evecComp (evec : List (List ℚ)) (row idx : Nat) : ℚ :=
  (evec.getD row []).getD idx 0

/-- The accumulation loop of `CointResult.get_coint_plot` with
`include_all_evecs=False` (`src/src/coint.py`), after the first symbol has
initialised the `price` column: each further symbol adds its close series
scaled by `evec[evec][count]`. -/
def coint_price_go (closeOf : String → List ℚ) (evec : List (List ℚ))
    (e : Nat) : List ℚ → Nat → List String → List ℚ
  | acc, _, [] => acc
  | acc, count, s :: ss =>
    coint_price_go closeOf evec e
      (List.zipWith (· + ·) acc ((closeOf s).map (· * evecComp evec e count)))
      (count + 1) ss

/-- The `price` column computed by `CointResult.get_coint_plot` with
`include_all_evecs=False` (`src/src/coint.py`): `closeOf s` is the `close`
column that `get_binance_kline_data` returns for symbol `s`, and `e` is the
`evec` argument selecting the eigenvector row. -/
def coint_price (closeOf : String → List ℚ) (evec : List (List ℚ)) (e : Nat) :
    List String → List ℚ
  | [] => []
  | s :: ss =>
    coint_price_go closeOf evec e ((closeOf s).map (· * evecComp evec e 0)) 1 ss

/-- The `price_i` columns of `CointResult.get_coint_plot` with
`include_all_evecs=True` as written in `src/src/coint.py`: after the first
symbol initialises every column, each further symbol OVERWRITES column `i`
with `closeOf s * evec[i][count]` (the `+` of the bundled version is
missing), so only the last symbol's contribution survives. -/
def coint_all_src_go (closeOf : String → List ℚ) (evec : List (List ℚ))
    (k : Nat) : List (List ℚ) → Nat → List String → List (List ℚ)
  | cols, _, [] => cols
  | _, count, s :: ss =>
    coint_all_src_go closeOf evec k
      ((List.range k).map fun i => (closeOf s).map (· * evecComp evec i count))
      (count + 1) ss

/-- The list of columns `price_0 … price_{k-1}` produced by the
`include_all_evecs=True` branch of `src/src/coint.py`. -/
def coint_all_evecs_src (closeOf : String → List ℚ) (evec : List (List ℚ))
    (symbols : List String) : List (List ℚ) :=
  match symbols with
  | [] => []
  | s :: ss =>
    coint_all_src_go closeOf evec symbols.length
      ((List.range symbols.length).map fun i =>
        (closeOf s).map (· * evecComp evec i 0)) 1 ss

/-- The same branch as written in the bundled
`src/researchtools/__init__.py`: each further symbol ADDS
`closeOf s * evec[i][count]` to column `i`. -/
def coint_all_bundled_go (closeOf : String → List ℚ) (evec : List (List ℚ))
    (k : Nat) : List (List ℚ) → Nat → List String → List (List ℚ)
  | cols, _, [] => cols
  | cols, count, s :: ss =>
    coint_all_bundled_go closeOf evec k
      ((List.range k).map fun i =>
        List.zipWith (· + ·) (cols.getD i [])
          ((closeOf s).map (· * evecComp evec i count)))
      (count + 1) ss

/-- The list of columns `price_0 … price_{k-1}` produced by the
`include_all_evecs=True` branch of `src/researchtools/__init__.py` (the
accumulating version). -/
def coint_all_evecs_bundled (closeOf : String → List ℚ) (evec : List (List ℚ))
    (symbols : List String) : List (List ℚ) :=
  match symbols with
  | [] => []
  | s :: ss =>
    coint_all_bundled_go closeOf evec symbols.length
      ((List.range symbols.length).map fun i =>
        (closeOf s).map (· * evecComp evec i 0)) 1 ss

/-! ## Theorems -/

/-- C6: `get_path` is deterministic (it is a pure function of its five
arguments) and produces exactly the exchange-convention path
`data/spot/<period>/<kind>/<SYMBOL>/<interval>/` for spot — with
`data/futures/<type>` replacing `data/spot` for non-spot trading types, the
symbol uppercased, the interval segment omitted when no interval is given —
and a trailing slash. -/
theorem get_path_matches_convention :
    ∀ (tt kind period sym : String) (itv : Option String),
      get_path tt kind period sym itv = get_path_spec tt kind period sym itv ∧
      ∃ r, get_path tt kind period sym itv = r ++ "/" := by
  intro tt kind period sym itv
  constructor
  · by_cases h : tt = "spot" <;> cases itv <;>
      simp [get_path, get_path_spec, h, String.append_assoc]
  · cases itv <;> exact ⟨_, rfl⟩

/-- Every triple visited by the loops of `download_daily_klines` has its
interval both in the requested list and in the daily whitelist. -/
theorem klinesTriples_interval_mem (symbols intervals : List String)
    (dates : List PyDate) (s e : PyDate) (t : String × String × PyDate)
    (ht : t ∈ klinesTriples symbols
      ((intervals.filter (fun i => decide (i ∈ DAILY_INTERVALS))).dedup)
      dates s e) :
    t.2.1 ∈ DAILY_INTERVALS ∧ t.2.1 ∈ intervals := by
  simp only [klinesTriples, List.mem_flatMap, List.mem_map, List.mem_filter,
    List.mem_dedup] at ht
  obtain ⟨sym, _, itv, ⟨hitv, hd⟩, d, _, rfl⟩ := ht
  exact ⟨by simpa using hd, hitv⟩

/-- C9: `download_daily_klines` silently restricts the requested intervals
to the `DAILY_INTERVALS` whitelist.  Every attempted download uses an
interval from the whitelist, and when none of the requested intervals is
whitelisted (e.g. `3d`, `1w`, `1mo`) no download at all is attempted, the
file system is untouched, and no error is raised (the function still
returns a value). -/
theorem download_daily_klines_whitelist (env : Option String) (sd : String)
    (net : String → Option String) (fs : FS) (tt : String)
    (symbols intervals : List String) (dates : List PyDate)
    (sd0 ed0 : Option PyDate) (today : PyDate) (folder : Option String)
    (cks : Nat) (h : ∀ i ∈ intervals, i ∉ DAILY_INTERVALS) :
    (download_daily_klines env sd net fs tt symbols intervals dates sd0 ed0
      today folder cks).2 = [] ∧
    (download_daily_klines env sd net fs tt symbols intervals dates sd0 ed0
      today folder cks).1 = fs := by
  have h2 : intervals.filter (fun i => decide (i ∈ DAILY_INTERVALS)) = [] := by
    simp only [List.filter_eq_nil_iff, decide_eq_true_eq]
    simpa using h
  have h3 : (symbols.flatMap fun _ => ([] : List (String × String × PyDate))) = [] := by
    induction symbols with
    | nil => rfl
    | cons a l ih => simp [ih]
  simp [download_daily_klines, klinesAttemptList, klinesTriples, h2, h3]

/-- Closed witness for `download_daily_klines_whitelist`: requesting only
the interval `3d` over a one-day range yields no download attempts. -/
theorem download_daily_klines_whitelist_witness :
    (download_daily_klines none "" (fun _ => none) ⟨[], []⟩ "spot"
      ["BTCUSDT"] ["3d"] [⟨2021, 11, 1⟩] (some ⟨2021, 11, 1⟩)
      (some ⟨2021, 11, 2⟩) ⟨2021, 12, 1⟩ none 0).2 = [] :=
  (download_daily_klines_whitelist none "" (fun _ => none) ⟨[], []⟩ "spot"
    ["BTCUSDT"] ["3d"] [⟨2021, 11, 1⟩] (some ⟨2021, 11, 1⟩)
    (some ⟨2021, 11, 2⟩) ⟨2021, 12, 1⟩ none 0 (by decide)).1

theorem FS.pathExists_writeFile_self (fs : FS) (p c : String) :
    (fs.writeFile p c).pathExists p = true := by
  simp [FS.writeFile, FS.pathExists]

theorem FS.mkdir_files (fs : FS) (d : String) :
    (fs.mkdir d).files = fs.files := by
  unfold FS.mkdir; split <;> rfl

theorem FS.mkdir_idem (fs : FS) (d : String) :
    (fs.mkdir d).mkdir d = fs.mkdir d := by
  unfold FS.mkdir
  by_cases h : d ∈ fs.dirs <;> simp [h]

/-- Unfolding of `download_file` written out as a single conditional, for case analysis
in the proofs below. -/
theorem download_file_eq (env : Option String) (sd : String)
    (net : String → Option String) (fs : FS) (bp fn : String)
    (dr fo : Option String) :
    download_file env sd net fs bp fn dr fo =
      (if fs.pathExists (computed_save_path env sd bp fn fo) then (fs, false)
       else
         let bp2 := match truthy fo with | some f => pathJoin f bp | none => bp
         let fs1 := if fs.pathExists bp2 then fs
           else fs.mkdir (get_destination_dir env sd bp2 none)
         match net (get_download_url (bp ++ fn)) with
         | some c => (fs1.writeFile (computed_save_path env sd bp fn fo) c, true)
         | none => (fs1, true)) := by
  simp only [download_file, download_file_try]
  split <;> try rfl
  cases net (get_download_url (bp ++ fn)) <;> rfl

/-- When the remote file is missing (`urlopen` raises `HTTPError`),
`download_file` swallows the error and never writes a file. -/
theorem download_file_files_of_net_none (env : Option String) (sd : String)
    (net : String → Option String) (fs : FS) (bp fn : String)
    (dr fo : Option String) (h : net (get_download_url (bp ++ fn)) = none) :
    ((download_file env sd net fs bp fn dr fo).1).files = fs.files := by
  unfold download_file
  by_cases hex : fs.pathExists (computed_save_path env sd bp fn fo) = true
  · simp [hex]
  · rw [Bool.not_eq_true] at hex
    simp only [hex, download_file_try, h, Bool.false_eq_true, if_false]
    split <;> simp [FS.mkdir_files]

/-- C1: when the computed local save path already exists, `download_file`
returns at once — the network is never consulted (the flag is `false`) and
the file system, including the existing file, is returned unchanged — and
running the same download twice in a row leaves the file system exactly as
running it once does. -/
theorem download_file_skip_and_idempotent (env : Option String) (sd : String)
    (net : String → Option String) (fs : FS) (bp fn : String)
    (dr fo : Option String) :
    (fs.pathExists (computed_save_path env sd bp fn fo) = true →
      download_file env sd net fs bp fn dr fo = (fs, false)) ∧
    (download_file env sd net (download_file env sd net fs bp fn dr fo).1
        bp fn dr fo).1 =
      (download_file env sd net fs bp fn dr fo).1 := by
  constructor
  · intro h
    rw [download_file_eq]
    simp [h]
  · by_cases h : fs.pathExists (computed_save_path env sd bp fn fo) = true
    · have h1 : download_file env sd net fs bp fn dr fo = (fs, false) := by
        rw [download_file_eq]; simp [h]
      rw [h1]
      show (download_file env sd net fs bp fn dr fo).1 = fs
      rw [h1]
    · rw [Bool.not_eq_true] at h
      rw [download_file_eq env sd net fs bp fn dr fo]
      simp only [h, Bool.false_eq_true, if_false]
      cases hnet : net (get_download_url (bp ++ fn)) with
      | some c =>
        simp only []
        rw [download_file_eq]
        simp [FS.pathExists_writeFile_self]
      | none =>
        simp only []
        rw [download_file_eq]
        by_cases h2 : (fs.pathExists
            (match truthy fo with
             | some f => pathJoin f bp
             | none => bp)) = true
        · simp only [h2, if_true]
          simp [h, hnet]
        · rw [Bool.not_eq_true] at h2
          simp only [h2, Bool.false_eq_true, if_false]
          by_cases h3 : ((fs.mkdir
              (get_destination_dir env sd
                (match truthy fo with
                 | some f => pathJoin f bp
                 | none => bp) none)).pathExists
              (computed_save_path env sd bp fn fo)) = true
          · simp [h3]
          · rw [Bool.not_eq_true] at h3
            simp only [h3, Bool.false_eq_true, if_false, hnet]
            split
            · rfl
            · simp [FS.mkdir_idem]

/-- Closed witness for `download_file_skip_and_idempotent`: with the file
already on disk the call returns the file system unchanged and reports that
no network connection was opened. -/
theorem download_file_skip_witness :
    download_file none "sd" (fun _ => some "body")
      ⟨[("sd/data/x/F.zip", "old")], []⟩ "data/x/" "F.zip" none none =
      (⟨[("sd/data/x/F.zip", "old")], []⟩, false) :=
  (download_file_skip_and_idempotent none "sd" (fun _ => some "body")
    ⟨[("sd/data/x/F.zip", "old")], []⟩ "data/x/" "F.zip" none none).1
    (by decide)

/-- C2: an HTTP error (in particular a 404 for a missing archive) raised
while fetching one file is caught inside `download_file`: the call still
returns (no exception reaches the caller) with no file written, the set of
`(path, file_name)` download attempts of `download_daily_klines` is the same
whatever the network or prior file system state (so the per-symbol /
per-interval / per-date loops always continue with the remaining files), and
even a network that fails every request leaves the loop writing nothing yet
completing all attempts. -/
theorem download_daily_klines_http_error_tolerant (env : Option String)
    (sd : String) (net : String → Option String) (fs : FS) (tt : String)
    (symbols intervals : List String) (dates : List PyDate)
    (sd0 ed0 : Option PyDate) (today : PyDate) (folder : Option String)
    (cks : Nat) :
    (∀ bp fn dr fo, net (get_download_url (bp ++ fn)) = none →
      ((download_file env sd net fs bp fn dr fo).1).files = fs.files) ∧
    (∀ (net' : String → Option String) (fs' : FS),
      (download_daily_klines env sd net fs tt symbols intervals dates sd0 ed0
        today folder cks).2 =
      (download_daily_klines env sd net' fs' tt symbols intervals dates sd0
        ed0 today folder cks).2) ∧
    ((∀ u, net u = none) →
      ((download_daily_klines env sd net fs tt symbols intervals dates sd0
        ed0 today folder cks).1).files = fs.files) := by
  refine ⟨fun bp fn dr fo h => download_file_files_of_net_none env sd net fs
    bp fn dr fo h, fun net' fs' => rfl, fun hnet => ?_⟩
  have key : ∀ (l : List (String × String)) (dr : Option String) (fs0 : FS),
      (l.foldl (fun acc a => (download_file env sd net acc a.1 a.2 dr folder).1)
        fs0).files = fs0.files := by
    intro l
    induction l with
    | nil => intro dr fs0; rfl
    | cons a rest ih =>
      intro dr fs0
      simp only [List.foldl_cons]
      rw [ih]
      exact download_file_files_of_net_none env sd net fs0 a.1 a.2 dr folder
        (hnet _)
  simp only [download_daily_klines]
  exact key _ _ fs

/-- Closed witness for `download_daily_klines_http_error_tolerant`: one
symbol, one interval, one in-range date, and a network that always fails:
the attempt is made and nothing is written. -/
theorem download_daily_klines_http_error_witness :
    ((download_daily_klines none "" (fun _ => none) ⟨[], []⟩ "spot"
        ["BTCUSDT"] ["1m"] [⟨2021, 11, 1⟩] (some ⟨2021, 11, 1⟩)
        (some ⟨2021, 11, 2⟩) ⟨2021, 12, 1⟩ none 0).1).files = [] :=
  (download_daily_klines_http_error_tolerant none "" (fun _ => none) ⟨[], []⟩
    "spot" ["BTCUSDT"] ["1m"] [⟨2021, 11, 1⟩] (some ⟨2021, 11, 1⟩)
    (some ⟨2021, 11, 2⟩) ⟨2021, 12, 1⟩ none 0).2.2 (fun _ => rfl)

/-- C3 counterexample: the claim promises one download attempt for every
requested `(symbol, interval, date)` triple whose date is in range, but with
the requested interval `1w` — a perfectly valid member of `INTERVALS` — and
an in-range date, `download_daily_klines` attempts nothing at all: the
interval list is silently intersected with `DAILY_INTERVALS` first. -/
theorem download_daily_klines_attempt_cex :
    "1w" ∈ INTERVALS ∧
    PyDate.leb ⟨2021, 5, 1⟩ ⟨2021, 5, 10⟩ = true ∧
    PyDate.leb ⟨2021, 5, 10⟩ ⟨2021, 5, 31⟩ = true ∧
    (download_daily_klines none "" (fun _ => none) ⟨[], []⟩ "spot"
      ["ETHUSDT"] ["1w"] [⟨2021, 5, 10⟩] (some ⟨2021, 5, 1⟩)
      (some ⟨2021, 5, 31⟩) ⟨2021, 12, 1⟩ none 0).2.length = 0 := by
  decide

theorem flatMap_singleton_eq_map (f : α → β) (l : List α) :
    (l.flatMap fun x => [f x]) = l.map f := by
  induction l with
  | nil => rfl
  | cons a l ih => simp [ih]

theorem klinesAttemptList_checksum_zero (tt : String)
    (triples : List (String × String × PyDate)) :
    klinesAttemptList tt triples 0 = triples.map fun t =>
      (get_path tt "klines" "daily" t.1 (some t.2.1),
       klineFileName t.1 t.2.1 t.2.2) := by
  have h : klinesAttemptList tt triples 0 = triples.flatMap fun t =>
      [(get_path tt "klines" "daily" t.1 (some t.2.1),
        klineFileName t.1 t.2.1 t.2.2)] := by
    simp [klinesAttemptList]
  rw [h, flatMap_singleton_eq_map]

theorem count_map_triple [DecidableEq α] [DecidableEq γ] (a b : α)
    (dl : List γ) (sym itv : α) (d : γ) :
    (dl.map fun x => (a, b, x)).count (sym, itv, d) =
      if a = sym ∧ b = itv then dl.count d else 0 := by
  induction dl with
  | nil => simp
  | cons x dl ih =>
    rw [List.map_cons, List.count_cons, ih]
    by_cases ha : a = sym <;> by_cases hb : b = itv <;>
      by_cases hx : x = d <;>
        simp [ha, hb, hx, Prod.ext_iff, List.count_cons]

theorem count_triples_inner [DecidableEq α] [DecidableEq γ] (a : α)
    (intervals2 : List α) (dl : List γ) (sym itv : α) (d : γ) :
    (intervals2.flatMap fun b => dl.map fun x => (a, b, x)).count
        (sym, itv, d) =
      (if a = sym then 1 else 0) * (intervals2.count itv * dl.count d) := by
  induction intervals2 with
  | nil => simp
  | cons b intervals2 ih =>
    rw [List.flatMap_cons, List.count_append, ih, count_map_triple]
    by_cases ha : a = sym <;> by_cases hb : b = itv <;>
      simp [ha, hb, List.count_cons] <;> ring

theorem count_klinesTriples (symbols intervals2 : List String)
    (dates : List PyDate) (s e : PyDate) (sym itv : String) (d : PyDate) :
    (klinesTriples symbols intervals2 dates s e).count (sym, itv, d) =
      symbols.count sym * (intervals2.count itv *
        ((dates.filter fun x => s.leb x && x.leb e).count d)) := by
  induction symbols with
  | nil => simp [klinesTriples]
  | cons a symbols ih =>
    simp only [klinesTriples] at ih ⊢
    rw [List.flatMap_cons, List.count_append, ih, count_triples_inner]
    by_cases ha : a = sym <;> simp [ha, List.count_cons] <;> ring

theorem count_eq_ite_of_nodup [DecidableEq α] (l : List α) (h : l.Nodup)
    (a : α) : l.count a = if a ∈ l then 1 else 0 := by
  by_cases hm : a ∈ l
  · simp [hm, List.count_eq_one_of_mem h hm]
  · simp [hm, List.count_eq_zero_of_not_mem hm]

/-- C3, amended: over distinct symbols and dates, and provided the
`(path, file name)` rendering is collision-free on the visited triples
(`hmatch`), `download_daily_klines` with `checksum = 0` attempts exactly one
download named `SYMBOL-interval-date.zip` under the Resolver's path for each
`(symbol, interval, date)` with `interval` both requested and in
`DAILY_INTERVALS` and `start_date ≤ date ≤ end_date`, and attempts none for
any other triple — in particular none for out-of-range dates and none for
requested intervals outside the daily whitelist. -/
theorem download_daily_klines_attempts_count (env : Option String)
    (sd : String) (net : String → Option String) (fs : FS) (tt : String)
    (symbols intervals : List String) (dates : List PyDate) (s e : PyDate)
    (today : PyDate) (folder : Option String)
    (hsym : symbols.Nodup) (hdates : dates.Nodup)
    (sym itv : String) (d : PyDate)
    (hmatch : ∀ t ∈ klinesTriples symbols
        ((intervals.filter fun i => decide (i ∈ DAILY_INTERVALS)).dedup)
        dates s e,
      (get_path tt "klines" "daily" t.1 (some t.2.1),
        klineFileName t.1 t.2.1 t.2.2) =
      (get_path tt "klines" "daily" sym (some itv), klineFileName sym itv d) →
      t = (sym, itv, d)) :
    (download_daily_klines env sd net fs tt symbols intervals dates (some s)
        (some e) today folder 0).2.count
      (get_path tt "klines" "daily" sym (some itv), klineFileName sym itv d) =
    if sym ∈ symbols ∧ (itv ∈ intervals ∧ itv ∈ DAILY_INTERVALS) ∧
        d ∈ dates ∧ (s.leb d && d.leb e) = true
    then 1 else 0 := by
  have step1 : (download_daily_klines env sd net fs tt symbols intervals dates
      (some s) (some e) today folder 0).2 =
      (klinesTriples symbols
        ((intervals.filter fun i => decide (i ∈ DAILY_INTERVALS)).dedup)
        dates s e).map fun t =>
          (get_path tt "klines" "daily" t.1 (some t.2.1),
           klineFileName t.1 t.2.1 t.2.2) := by
    simp only [download_daily_klines, Option.getD_some]
    exact klinesAttemptList_checksum_zero tt _
  rw [step1]
  rw [List.count, List.countP_map]
  rw [List.countP_congr (q := fun t => t == (sym, itv, d)) ?_]
  · rw [← List.count]
    rw [count_klinesTriples]
    rw [count_eq_ite_of_nodup symbols hsym,
      count_eq_ite_of_nodup _ (List.nodup_dedup _) itv,
      count_eq_ite_of_nodup _ (hdates.filter _) d]
    have hmem1 : (itv ∈ (intervals.filter fun i =>
        decide (i ∈ DAILY_INTERVALS)).dedup) ↔
        itv ∈ intervals ∧ itv ∈ DAILY_INTERVALS := by
      simp [List.mem_dedup, List.mem_filter]
    have hmem2 : (d ∈ dates.filter fun x => s.leb x && x.leb e) ↔
        d ∈ dates ∧ (s.leb d && d.leb e) = true := by
      simp [List.mem_filter]
    by_cases h1 : sym ∈ symbols <;>
      by_cases h2 : itv ∈ intervals ∧ itv ∈ DAILY_INTERVALS <;>
        by_cases h3 : d ∈ dates ∧ (s.leb d && d.leb e) = true <;>
          simp [h1, h2, h3, hmem1, hmem2]
  · intro t ht
    simp only [Function.comp_apply, beq_iff_eq]
    constructor
    · intro h
      exact hmatch t ht h
    · intro h
      rw [h]

/-- Closed witness for `download_daily_klines_attempts_count`: one symbol,
one whitelisted interval and one in-range date produce exactly one attempt
with the convention path and file name. -/
theorem download_daily_klines_attempts_count_witness :
    (download_daily_klines none "" (fun _ => none) ⟨[], []⟩ "spot"
        ["BTCUSDT"] ["1m"] [⟨2021, 11, 1⟩] (some ⟨2021, 11, 1⟩)
        (some ⟨2021, 11, 2⟩) ⟨2021, 12, 1⟩ none 0).2.count
      (get_path "spot" "klines" "daily" "BTCUSDT" (some "1m"),
        klineFileName "BTCUSDT" "1m" ⟨2021, 11, 1⟩) =
    if "BTCUSDT" ∈ ["BTCUSDT"] ∧
        ("1m" ∈ ["1m"] ∧ "1m" ∈ DAILY_INTERVALS) ∧
        ⟨2021, 11, 1⟩ ∈ [(⟨2021, 11, 1⟩ : PyDate)] ∧
        (PyDate.leb ⟨2021, 11, 1⟩ ⟨2021, 11, 1⟩ &&
          PyDate.leb ⟨2021, 11, 1⟩ ⟨2021, 11, 2⟩) = true
    then 1 else 0 :=
  download_daily_klines_attempts_count none "" (fun _ => none)
    (⟨[], []⟩ : FS) "spot" ["BTCUSDT"] ["1m"] [(⟨2021, 11, 1⟩ : PyDate)]
    (⟨2021, 11, 1⟩ : PyDate) (⟨2021, 11, 2⟩ : PyDate)
    (⟨2021, 12, 1⟩ : PyDate) none (by decide) (by decide) "BTCUSDT" "1m"
    (⟨2021, 11, 1⟩ : PyDate) (by decide)

theorem tdcFloored_time_map (rows : List TradeRow) :
    (tdcFloored rows).map (fun r => r.time) =
      rows.map (fun r => r.time / 10000 * 10000) := by
  unfold tdcFloored
  rw [List.map_map]
  rfl

theorem mem_tdcKeys (rows : List TradeRow) (t : Nat) :
    t ∈ tdcKeys rows ↔ ∃ r ∈ rows, r.time / 10000 * 10000 = t := by
  unfold tdcKeys
  rw [sortByKey_mem, List.mem_dedup, tdcFloored_time_map, List.mem_map]

theorem tdcKeys_nodup (rows : List TradeRow) : (tdcKeys rows).Nodup :=
  sortByKey_nodup id _ (List.nodup_dedup _)

theorem tdc_bucket (rows : List TradeRow) (t : Nat) :
    (tdcFloored rows).filter (fun r => r.time == t) =
      (rows.filter fun r => r.time / 10000 * 10000 == t).map
        (fun r => { r with time := r.time / 10000 * 10000 }) := by
  unfold tdcFloored
  rw [List.filter_map]
  rfl

/-- C4: `trade_data_collation` buckets the trades on a 10-second grid:
every output row's time is an input trade time (in milliseconds) floored to
a multiple of 10000; its price is the arithmetic mean and its `qty` /
`quoteQty` the sums over the trades of that bucket (and the symbol column is
the given symbol); and every input trade falls in exactly one output
bucket. -/
theorem trade_data_collation_buckets (rows : List TradeRow) (symbol : String) :
    (∀ o ∈ trade_data_collation rows symbol,
      ∃ r ∈ rows, o.time = r.time / 10000 * 10000) ∧
    (∀ o ∈ trade_data_collation rows symbol,
      o.price = ((rows.filter fun r => r.time / 10000 * 10000 == o.time).map
          (·.price)).sum /
        (((rows.filter fun r => r.time / 10000 * 10000 == o.time)).length : ℚ) ∧
      o.qty = ((rows.filter fun r => r.time / 10000 * 10000 == o.time).map
          (·.qty)).sum ∧
      o.quoteQty = ((rows.filter fun r => r.time / 10000 * 10000 == o.time).map
          (·.quoteQty)).sum ∧
      o.symbol = symbol) ∧
    (∀ r ∈ rows, (trade_data_collation rows symbol).countP
        (fun o => o.time == r.time / 10000 * 10000) = 1) := by
  have hunfold : trade_data_collation rows symbol =
      (tdcKeys rows).map (tdcMk rows symbol) := rfl
  have hagg : ∀ t : Nat,
      (tdcMk rows symbol t).price =
        ((rows.filter fun r => r.time / 10000 * 10000 == t).map
          (·.price)).sum /
        (((rows.filter fun r => r.time / 10000 * 10000 == t)).length : ℚ) ∧
      (tdcMk rows symbol t).qty =
        ((rows.filter fun r => r.time / 10000 * 10000 == t).map (·.qty)).sum ∧
      (tdcMk rows symbol t).quoteQty =
        ((rows.filter fun r => r.time / 10000 * 10000 == t).map
          (·.quoteQty)).sum := by
    intro t
    unfold tdcMk
    rw [tdc_bucket]
    refine ⟨?_, ?_, ?_⟩ <;>
      · simp only [List.map_map, List.length_map]
        rfl
  refine ⟨?_, ?_, ?_⟩
  · intro o ho
    rw [hunfold, List.mem_map] at ho
    obtain ⟨t, ht, rfl⟩ := ho
    obtain ⟨r, hr, hrt⟩ := (mem_tdcKeys rows t).mp ht
    exact ⟨r, hr, hrt.symm⟩
  · intro o ho
    rw [hunfold, List.mem_map] at ho
    obtain ⟨t, ht, rfl⟩ := ho
    exact ⟨(hagg t).1, (hagg t).2.1, (hagg t).2.2, rfl⟩
  · intro r hr
    rw [hunfold, List.countP_map]
    have hpred : ((fun o : CollRow => o.time == r.time / 10000 * 10000) ∘
        tdcMk rows symbol) = fun t : Nat => t == r.time / 10000 * 10000 := rfl
    rw [hpred, ← List.count]
    exact List.count_eq_one_of_mem (tdcKeys_nodup rows)
      ((mem_tdcKeys rows _).mpr ⟨r, hr, rfl⟩)

/-- Closed witness for `trade_data_collation_buckets`: two trades in one
bucket and one in another are averaged and summed per bucket. -/
theorem trade_data_collation_buckets_witness :
    (∀ o ∈ trade_data_collation
        [⟨1, 2, 3, 4, 10001, false, true⟩, ⟨2, 4, 5, 6, 12002, true, false⟩,
         ⟨3, 10, 7, 8, 25000, false, false⟩] "BTCUSDT",
      ∃ r ∈ [(⟨1, 2, 3, 4, 10001, false, true⟩ : TradeRow),
        ⟨2, 4, 5, 6, 12002, true, false⟩, ⟨3, 10, 7, 8, 25000, false, false⟩],
        o.time = r.time / 10000 * 10000) ∧
    (∀ r ∈ [(⟨1, 2, 3, 4, 10001, false, true⟩ : TradeRow),
        ⟨2, 4, 5, 6, 12002, true, false⟩, ⟨3, 10, 7, 8, 25000, false, false⟩],
      (trade_data_collation
        [⟨1, 2, 3, 4, 10001, false, true⟩, ⟨2, 4, 5, 6, 12002, true, false⟩,
         ⟨3, 10, 7, 8, 25000, false, false⟩] "BTCUSDT").countP
        (fun o => o.time == r.time / 10000 * 10000) = 1) :=
  ⟨(trade_data_collation_buckets
      [⟨1, 2, 3, 4, 10001, false, true⟩, ⟨2, 4, 5, 6, 12002, true, false⟩,
       ⟨3, 10, 7, 8, 25000, false, false⟩] "BTCUSDT").1,
   (trade_data_collation_buckets
      [⟨1, 2, 3, 4, 10001, false, true⟩, ⟨2, 4, 5, 6, 12002, true, false⟩,
       ⟨3, 10, 7, 8, 25000, false, false⟩] "BTCUSDT").2.2⟩

/-- C5: the assembled tables are time-ordered whatever the order and content
of the per-day files: whenever `get_binance_kline_data` returns a table, its
rows are sorted in non-decreasing order of `close time`, and whenever
`get_binance_trade_data` returns a table, its rows are sorted in
non-decreasing order of `time`. -/
theorem binance_data_time_ordered (readK : String → List KlineCsv)
    (readT : String → List TradeRow) (cwd : String) (dateRange : List PyDate)
    (symReq : List (String × List String)) (symbols : List String) :
    (∀ kl, get_binance_kline_data readK cwd dateRange symReq = .ok kl →
      kl.Pairwise fun a b => a.closeTime ≤ b.closeTime) ∧
    (∀ tl, get_binance_trade_data readT cwd dateRange symbols = .ok tl →
      tl.Pairwise fun a b => a.time ≤ b.time) := by
  constructor
  · intro kl hk
    unfold get_binance_kline_data at hk
    cases h : downloaded_filepaths cwd "klines" dateRange symReq with
    | error e =>
      rw [h] at hk
      cases hk
    | ok fps =>
      rw [h] at hk
      cases hk
      exact sortByKey_pairwise _ _
  · intro tl ht
    unfold get_binance_trade_data at ht
    cases h : downloaded_filepaths cwd "trades" dateRange
        (symbols.map fun s => (s, ([] : List String))) with
    | error e =>
      rw [h] at ht
      cases ht
    | ok fps =>
      rw [h] at ht
      cases ht
      exact sortByKey_pairwise _ _

/-- Closed witness for `binance_data_time_ordered`, at the empty request. -/
theorem binance_data_time_ordered_witness :
    get_binance_kline_data (fun _ => []) "" [] [] = .ok [] ∧
    List.Pairwise (fun a b : KlineRow => a.closeTime ≤ b.closeTime) [] :=
  ⟨rfl, (binance_data_time_ordered (fun _ => []) (fun _ => []) "" [] [] []).1
    [] rfl⟩

theorem getD_zipWith_add (a b : List ℚ) (i : Nat) (ha : i < a.length)
    (hb : i < b.length) :
    (List.zipWith (· + ·) a b).getD i 0 = a.getD i 0 + b.getD i 0 := by
  induction a generalizing b i with
  | nil => cases ha
  | cons x a ih =>
    cases b with
    | nil => cases hb
    | cons y b =>
      cases i with
      | zero => rfl
      | succ i =>
        exact ih b i (Nat.lt_of_succ_lt_succ ha) (Nat.lt_of_succ_lt_succ hb)

theorem getD_map_mul (l : List ℚ) (c : ℚ) (i : Nat) (h : i < l.length) :
    (l.map (· * c)).getD i 0 = l.getD i 0 * c := by
  induction l generalizing i with
  | nil => cases h
  | cons x l ih =>
    cases i with
    | zero => rfl
    | succ i => exact ih i (Nat.lt_of_succ_lt_succ h)

theorem coint_price_go_getD (closeOf : String → List ℚ)
    (evec : List (List ℚ)) (e n i : Nat) (hi : i < n) :
    ∀ (ss : List String) (acc : List ℚ) (count : Nat),
      acc.length = n → (∀ s ∈ ss, (closeOf s).length = n) →
      (coint_price_go closeOf evec e acc count ss).getD i 0 =
        acc.getD i 0 + ∑ j ∈ Finset.range ss.length,
          (closeOf (ss.getD j "")).getD i 0 * evecComp evec e (count + j) := by
  intro ss
  induction ss with
  | nil =>
    intro acc count hacc hss
    simp [coint_price_go]
  | cons s ss ih =>
    intro acc count hacc hss
    have hs : (closeOf s).length = n := hss s (by simp)
    have hlen2 : (List.zipWith (· + ·) acc
        ((closeOf s).map (· * evecComp evec e count))).length = n := by
      rw [List.length_zipWith, List.length_map, hacc, hs, Nat.min_self]
    rw [coint_price_go, ih _ (count + 1) hlen2
      (fun s' hs' => hss s' (by simp [hs']))]
    rw [getD_zipWith_add _ _ i (by omega) (by rw [List.length_map]; omega)]
    rw [getD_map_mul _ _ i (by omega)]
    rw [List.length_cons, Finset.sum_range_succ']
    have hcongr : ∀ j ∈ Finset.range ss.length,
        (closeOf ((s :: ss).getD (j + 1) "")).getD i 0 *
          evecComp evec e (count + (j + 1)) =
        (closeOf (ss.getD j "")).getD i 0 *
          evecComp evec e (count + 1 + j) := by
      intro j _
      have : count + (j + 1) = count + 1 + j := by omega
      rw [this]
      rfl
    rw [Finset.sum_congr rfl hcongr]
    have h0 : (closeOf ((s :: ss).getD 0 "")).getD i 0 *
        evecComp evec e (count + 0) =
        (closeOf s).getD i 0 * evecComp evec e count := by
      rw [Nat.add_zero]
      rfl
    rw [h0]
    ring

/-- C7: with `include_all_evecs=False`, the `price` (spread) series computed
by `CointResult.get_coint_plot` equals, at every time index `i`, the sum
over all symbols of that symbol's closing-price series at `i` multiplied by
the component of eigenvector row `e` of the stored Johansen result at the
symbol's position in the symbol list. -/
theorem coint_price_formula (closeOf : String → List ℚ)
    (evec : List (List ℚ)) (e : Nat) (symbols : List String) (n i : Nat)
    (hne : symbols ≠ []) (hlen : ∀ s ∈ symbols, (closeOf s).length = n)
    (hi : i < n) :
    (coint_price closeOf evec e symbols).getD i 0 =
      ∑ j ∈ Finset.range symbols.length,
        (closeOf (symbols.getD j "")).getD i 0 * evecComp evec e j := by
  cases symbols with
  | nil => exact absurd rfl hne
  | cons s ss =>
    have hs : (closeOf s).length = n := hlen s (by simp)
    rw [coint_price]
    rw [coint_price_go_getD closeOf evec e n i hi ss _ 1
      (by rw [List.length_map, hs]) (fun s' hs' => hlen s' (by simp [hs']))]
    rw [getD_map_mul _ _ i (by omega)]
    rw [List.length_cons, Finset.sum_range_succ']
    have hcongr : ∀ j ∈ Finset.range ss.length,
        (closeOf ((s :: ss).getD (j + 1) "")).getD i 0 *
          evecComp evec e (j + 1) =
        (closeOf (ss.getD j "")).getD i 0 * evecComp evec e (1 + j) := by
      intro j _
      have h1 : (s :: ss).getD (j + 1) "" = ss.getD j "" := rfl
      rw [h1, show j + 1 = 1 + j by omega]
    rw [Finset.sum_congr rfl hcongr]
    have h0 : (closeOf ((s :: ss).getD 0 "")).getD i 0 * evecComp evec e 0 =
        (closeOf s).getD i 0 * evecComp evec e 0 := rfl
    rw [h0]
    ring

/-- Closed witness for `coint_price_formula`: two symbols with one-point
close series 2 and 3 and eigenvector row `(5, 7)` give the spread
`2 * 5 + 3 * 7 = 31`. -/
theorem coint_price_formula_witness :
    (coint_price (fun s => if s = "A" then [(2 : ℚ)] else [3]) [[5, 7]] 0
      ["A", "B"]).getD 0 0 =
    ∑ j ∈ Finset.range (["A", "B"] : List String).length,
      ((fun s => if s = "A" then [(2 : ℚ)] else [3])
        ((["A", "B"] : List String).getD j "")).getD 0 0 *
        evecComp [[5, 7]] 0 j :=
  coint_price_formula (fun s => if s = "A" then [(2 : ℚ)] else [3]) [[5, 7]]
    0 ["A", "B"] 1 0 (by decide)
    (by
      intro s hs
      simp only [List.mem_cons, List.not_mem_nil, or_false] at hs
      rcases hs with rfl | rfl
      · rfl
      · rfl)
    (by decide)

/-- C8 (code bug): with `include_all_evecs=True`, `src/src/coint.py`
overwrites each `price_i` column with the current symbol's contribution
instead of adding it (its own comment says "Add price to coint"), so on two
symbols with close series `[1]` and `[10]` and an all-ones eigenvector
matrix it produces `[[10], [10]]` — only the last symbol survives — while
the accumulating version bundled in `src/researchtools/__init__.py`
produces the claimed sums `[[11], [11]]`; the two implementations differ. -/
theorem coint_all_evecs_src_overwrites :
    coint_all_evecs_src (fun s => if s = "A" then [(1 : ℚ)] else [10])
        [[1, 1], [1, 1]] ["A", "B"] = [[10], [10]] ∧
    coint_all_evecs_bundled (fun s => if s = "A" then [(1 : ℚ)] else [10])
        [[1, 1], [1, 1]] ["A", "B"] = [[11], [11]] ∧
    coint_all_evecs_src (fun s => if s = "A" then [(1 : ℚ)] else [10])
        [[1, 1], [1, 1]] ["A", "B"] ≠
      coint_all_evecs_bundled (fun s => if s = "A" then [(1 : ℚ)] else [10])
        [[1, 1], [1, 1]] ["A", "B"] := by
  have hA : ((fun s : String => if s = "A" then [(1 : ℚ)] else [10]) "A") =
      [1] := if_pos rfl
  have hB : ((fun s : String => if s = "A" then [(1 : ℚ)] else [10]) "B") =
      [10] := if_neg (by decide)
  have h1 : coint_all_evecs_src
      (fun s => if s = "A" then [(1 : ℚ)] else [10]) [[1, 1], [1, 1]]
      ["A", "B"] = [[10], [10]] := by
    simp [coint_all_evecs_src, coint_all_src_go, evecComp, List.range_succ,
      hA, hB]
  have h2 : coint_all_evecs_bundled
      (fun s => if s = "A" then [(1 : ℚ)] else [10]) [[1, 1], [1, 1]]
      ["A", "B"] = [[11], [11]] := by
    simp [coint_all_evecs_bundled, coint_all_bundled_go, evecComp,
      List.range_succ, hA, hB]
    norm_num
  refine ⟨h1, h2, ?_⟩
  rw [h1, h2]
  intro hcontra
  rw [List.cons.injEq] at hcontra
  obtain ⟨h4, _⟩ := hcontra
  rw [List.cons.injEq] at h4
  obtain ⟨h5, _⟩ := h4
  exact absurd h5 (by norm_num)

/-- C10: in `downloaded_filepaths`, a symbol with an empty interval list and
a non-`"trades"` type (here `"klines"`) never reaches the documented
`ValueError`; if it is the first symbol, the local variable `filepath` is
read before any assignment and the call fails with `UnboundLocalError`,
while if an earlier symbol already assigned `filepath` the stale path is
silently reused as the dictionary key — overwriting that earlier entry. -/
theorem downloaded_filepaths_empty_intervals (cwd : String) (d : PyDate)
    (ds : List PyDate) (sym : String) (rest : List (String × List String))
    (sym1 itv1 sym2 : String) :
    downloaded_filepaths cwd "klines" (d :: ds) ((sym, []) :: rest) =
      .error .unboundLocal ∧
    downloaded_filepaths cwd "klines" [d] [(sym1, [itv1]), (sym2, [])] =
      .ok [(klineFilepath cwd "klines" sym1 itv1 d, (sym2, none))] := by
  constructor
  · rfl
  · simp [downloaded_filepaths, dfSymbols, dfIntervals, dfDates1, dfDates2,
      upsert]

end ResearchTools
